import Mathlib

/-!
Verification development for the `offchat` relay server (`src/server.js`).

The server keeps an in-memory registry of rooms (`rooms : Map`), assigns
per-room codenames, relays encrypted payloads between members of a room,
and destroys rooms on TTL expiry, emptiness, or manual request.

The embedding below translates the room-management core of `server.js`
into pure Lean functions.  JavaScript `Map`s are modelled as association
lists with JS `Map.set`/`Map.delete` semantics, `Set`s as duplicate-free
lists, `setTimeout`/`clearTimeout` as a list of pending one-shot timers
carried in the server state, and `Math.random` / `crypto.randomUUID` as
oracle parameters supplied to each step.  Socket transports are modelled
by their observable interface: a `readyState` and a send-success flag per
connection id; outbound traffic is collected as a list of `Output`s.
-/

namespace Offchat

/-- Connection handle (a `ws` socket object in the source). -/
abbrev Conn := Nat

/-! ### JS `Map` / `Set` primitives on association lists -/

/-- `Map.get`: value of the first (unique) entry with key `k`. -/
def alGet {κ ν : Type} [DecidableEq κ] (m : List (κ × ν)) (k : κ) : Option ν :=
  (m.find? (fun p => decide (p.1 = k))).map (fun p => p.2)

/-- `Map.has`. -/
def alHas {κ ν : Type} [DecidableEq κ] (m : List (κ × ν)) (k : κ) : Bool :=
  m.any (fun p => decide (p.1 = k))

/-- `Map.set`: replace the value in place if the key is present, else append. -/
def alSet {κ ν : Type} [DecidableEq κ] (m : List (κ × ν)) (k : κ) (v : ν) :
    List (κ × ν) :=
  if alHas m k then m.map (fun p => if p.1 = k then (k, v) else p) else m ++ [(k, v)]

/-- `Map.delete`. -/
def alDelete {κ ν : Type} [DecidableEq κ] (m : List (κ × ν)) (k : κ) :
    List (κ × ν) :=
  m.filter (fun p => decide (p.1 ≠ k))

/-- `Set.add`: append only if absent, so the list stays duplicate-free. -/
def setAdd (s : List String) (x : String) : List String :=
  if x ∈ s then s else s ++ [x]

/-- `Set.delete`. -/
def setDelete (s : List String) (x : String) : List String :=
  s.filter (fun y => decide (y ≠ x))

/-! ### Constants from `server.js` -/

/-- The fixed pool of codenames (`CODENAMES`, server.js lines 14-20). -/
def CODENAMES : List String :=
  ["Phantom", "Specter", "Ghost", "Shadow", "Cipher", "Vector",
   "Null", "Void", "Echo", "Delta", "Omega", "Raven", "Viper",
   "Hawk", "Wolf", "Fox", "Lynx", "Cobra", "Mantis", "Wraith",
   "Onyx", "Nyx", "Zero", "Apex", "Flare", "Pulse", "Drift",
   "Storm", "Frost", "Blaze", "Shard", "Vertex", "Helix", "Prism"]

/-- `ALLOWED_TTL` (minutes). -/
def ALLOWED_TTL : List Nat := [10, 15, 30]

/-- `DEFAULT_TTL` (minutes). -/
def DEFAULT_TTL : Nat := 10

/-! ### Data model -/

/-- A room object (`rooms.set(name, {...})`, server.js lines 31-39).
`passwordHash = none` models JS `null`; `some ""` models the empty string,
which is falsy in JS just like `null`. -/
structure Room where
  name : String
  clients : List (Conn × String)
  createdAt : Nat
  ttlMs : Nat
  timer : Nat
  usedCodenames : List String
  passwordHash : Option String
deriving Repr, DecidableEq

/-- JS truthiness of the `passwordHash` field (`!!room.passwordHash`,
`if (existingRoom.passwordHash)`): `null` and `""` are falsy. -/
def truthy : Option String → Bool
  | none => false
  | some s => decide (s ≠ "")

/-- The deferred action a `setTimeout` call registered. -/
inductive TimerAction where
  /-- `setTimeout(() => destroyRoom(name), ttlMs)` in `getRoom`. -/
  | ttlExpiry (name : String)
  /-- the 2.5 s grace-period cleanup scheduled by `manualDestroyRoom`. -/
  | manualCleanup (name : String)
deriving Repr, DecidableEq

/-- A pending one-shot timer. -/
structure PendingTimer where
  id : Nat
  fireAt : Nat
  action : TimerAction
deriving Repr, DecidableEq

/-- Observable effects on the transports. -/
inductive Output where
  /-- `ws.send(msg)`; `ok` records whether the transport delivered it. -/
  | send (dst : Conn) (msg : String) (ok : Bool)
  /-- `ws.close(code?, reason)`; `none` is a close with no explicit code. -/
  | close (dst : Conn) (code : Option Nat) (reason : String)
deriving Repr, DecidableEq

/-- The connection a given output is addressed to. -/
def Output.conn : Output → Conn
  | .send c _ _ => c
  | .close c _ _ => c

/-- Whole-server state: the room registry (`rooms`), the pending timers,
a counter issuing timer ids, the clock (`Date.now()`), and the transport
oracle (per-connection `readyState` and send-success flag). -/
structure ServerState where
  rooms : List (String × Room)
  timers : List PendingTimer
  nextTimer : Nat
  now : Nat
  readyState : Conn → Nat
  sendOk : Conn → Bool

/-! ### Events and serialization

`broadcast` and the handlers call `JSON.stringify` on object literals;
`serialize` renders the same key order.  Payload strings are treated as
opaque (JSON string escaping of their contents is not modelled). -/

/-- Server→client events of `server.js` with their exact payload fields. -/
inductive Event where
  | init (codename : String) (participants : Nat) (expiresAt : Nat)
      (createdAt : Nat) (hasPassword : Bool)
  | join (codename : String) (participants : Nat)
  | leave (codename : String) (participants : Nat)
  | message (codename : String) (encrypted : String) (iv : String) (timestamp : Nat)
  | file (codename : String) (data : String) (dataIv : String)
      (meta : String) (metaIv : String) (timestamp : Nat)
  | typing (codename : String)
  /-- `{type:'destroyed'}`; the `manual:true` field is present only on
  manual destruction. -/
  | destroyed (manual : Bool)
  | authError (message : String)
deriving Repr, DecidableEq

/-- Quote a string as a JSON string literal (contents kept opaque). -/
def jstr (s : String) : String := "\"" ++ s ++ "\""

/-- `JSON.stringify` of each event object literal, field order as written
in the source.  `\x7b`/`\x7d` are the object braces. -/
def serialize : Event → String
  | .init cn n ex cr hp =>
      "\x7b\"type\":\"init\",\"codename\":" ++ jstr cn ++
      ",\"participants\":" ++ toString n ++
      ",\"expiresAt\":" ++ toString ex ++
      ",\"createdAt\":" ++ toString cr ++
      ",\"hasPassword\":" ++ toString hp ++ "\x7d"
  | .join cn n =>
      "\x7b\"type\":\"join\",\"codename\":" ++ jstr cn ++
      ",\"participants\":" ++ toString n ++ "\x7d"
  | .leave cn n =>
      "\x7b\"type\":\"leave\",\"codename\":" ++ jstr cn ++
      ",\"participants\":" ++ toString n ++ "\x7d"
  | .message cn e iv ts =>
      "\x7b\"type\":\"message\",\"codename\":" ++ jstr cn ++
      ",\"encrypted\":" ++ jstr e ++ ",\"iv\":" ++ jstr iv ++
      ",\"timestamp\":" ++ toString ts ++ "\x7d"
  | .file cn d di m mi ts =>
      "\x7b\"type\":\"file\",\"codename\":" ++ jstr cn ++
      ",\"data\":" ++ jstr d ++ ",\"dataIv\":" ++ jstr di ++
      ",\"meta\":" ++ jstr m ++ ",\"metaIv\":" ++ jstr mi ++
      ",\"timestamp\":" ++ toString ts ++ "\x7d"
  | .typing cn =>
      "\x7b\"type\":\"typing\",\"codename\":" ++ jstr cn ++ "\x7d"
  | .destroyed manual =>
      if manual then "\x7b\"type\":\"destroyed\",\"manual\":true\x7d"
      else "\x7b\"type\":\"destroyed\"\x7d"
  | .authError m =>
      "\x7b\"type\":\"auth_error\",\"message\":" ++ jstr m ++ "\x7d"

/-! ### Room management (server.js lines 26-98) -/

/-- `getRoom(name, passwordHash = null, ttlMinutes = DEFAULT_TTL)`:
create the room lazily (validating the TTL against the allow-list and
starting its expiry timer), then return `rooms.get(name)`. -/
def getRoom (st : ServerState) (name : String) (passwordHash : Option String)
    (ttlMinutes : Nat) : ServerState × Room :=
  match alGet st.rooms name with
  | some r => (st, r)
  | none =>
    let ttl := if ttlMinutes ∈ ALLOWED_TTL then ttlMinutes else DEFAULT_TTL
    let ttlMs := ttl * 60 * 1000
    let room : Room :=
      { name := name, clients := [], createdAt := st.now, ttlMs := ttlMs,
        timer := st.nextTimer, usedCodenames := [], passwordHash := passwordHash }
    ({ st with
        rooms := alSet st.rooms name room,
        timers := st.timers ++ [⟨st.nextTimer, st.now + ttlMs, .ttlExpiry name⟩],
        nextTimer := st.nextTimer + 1 }, room)

/-- `destroyRoom(name)`: no-op if the name is not registered; otherwise
send `{type:'destroyed'}` to every member (errors swallowed), close every
member transport, cancel the room's expiry timer and remove the room. -/
def destroyRoom (st : ServerState) (name : String) : ServerState × List Output :=
  match alGet st.rooms name with
  | none => (st, [])
  | some room =>
    let outs := room.clients.flatMap (fun p =>
      [Output.send p.1 (serialize (.destroyed false)) (st.sendOk p.1),
       Output.close p.1 none ""])
    ({ st with
        timers := st.timers.filter (fun t => decide (t.id ≠ room.timer)),
        rooms := alDelete st.rooms name }, outs)

/-- `manualDestroyRoom(name)`: no-op if unregistered; otherwise send
`{type:'destroyed',manual:true}` to every member (no exclusion, no
readyState check, errors swallowed), cancel the expiry timer, and
schedule the actual cleanup 2500 ms later.  The scheduled cleanup is the
`setTimeout` body of server.js lines 70-78; note it is itself never
cancelled and does not cancel the timer of the room it removes. -/
def manualDestroyRoom (st : ServerState) (name : String) :
    ServerState × List Output :=
  match alGet st.rooms name with
  | none => (st, [])
  | some room =>
    let msg := serialize (.destroyed true)
    let outs := room.clients.map (fun p => Output.send p.1 msg (st.sendOk p.1))
    ({ st with
        timers := st.timers.filter (fun t => decide (t.id ≠ room.timer)) ++
          [⟨st.nextTimer, st.now + 2500, .manualCleanup name⟩],
        nextTimer := st.nextTimer + 1 }, outs)

/-- `assignCodename(room)`: draw a random unused pool name; on pool
exhaustion return a synthetic `Agent-XXXX` name (which the source does
NOT record in `usedCodenames`).  `pick` stands for `Math.random` (the
index drawn is `pick % available.length`) and `tag` for the four
characters taken from `crypto.randomUUID()`. -/
def assignCodename (room : Room) (pick : Nat) (tag : String) : Room × String :=
  let available := CODENAMES.filter (fun n => decide (n ∉ room.usedCodenames))
  if available.length = 0 then
    (room, "Agent-" ++ tag)
  else
    let codename := available.getD (pick % available.length) ""
    ({ room with usedCodenames := setAdd room.usedCodenames codename }, codename)

/-- `broadcast(room, data, exclude = null)`: serialize once, then send the
same bytes to every member connection other than `exclude` whose
`readyState` is `1` (OPEN).  The loop never throws: per the `ws`
transport contract, `send` on an OPEN socket reports failures
asynchronously, recorded here in the `ok` flag of each attempt. -/
def broadcast (st : ServerState) (room : Room) (data : Event)
    (exclude : Option Conn) : List Output :=
  let msg := serialize data
  room.clients.filterMap (fun p =>
    if some p.1 ≠ exclude ∧ st.readyState p.1 = 1 then
      some (Output.send p.1 msg (st.sendOk p.1))
    else none)

/-! ### Connection handler (server.js lines 223-318) -/

/-- The query parameters of a connection request.  `room = none` models an
absent `room` parameter (`searchParams.get` returns `null`); `pwdHash` is
already defaulted to `""` (`url.searchParams.get('pwdHash') || ''`), and
`hasPassword` is the result of `=== '1'`. -/
structure ConnParams where
  room : Option String
  hasPassword : Bool
  pwdHash : String
  ttl : Nat
deriving Repr, DecidableEq

/-- The joining tail of the connection handler (server.js lines 249-250):
`assignCodename` followed by `room.clients.set(ws, codename)`. -/
def joinRoom (room : Room) (ws : Conn) (pick : Nat) (tag : String) :
    Room × String :=
  let rc := assignCodename room pick tag
  ({ rc.1 with clients := alSet rc.1.clients ws rc.2 }, rc.2)

/-- `wss.on('connection')` (server.js lines 223-265): validate the room
name, enforce the password gate on an existing protected room, materialize
the room if new, join, send the private `init` event, and broadcast the
`join` event to the other members. -/
def handleConnection (st : ServerState) (ws : Conn) (p : ConnParams)
    (pick : Nat) (tag : String) : ServerState × List Output :=
  match p.room with
  | none => (st, [Output.close ws (some 4001) "invalid room"])
  | some roomName =>
    if roomName = "" ∨ roomName.length > 64 then
      (st, [Output.close ws (some 4001) "invalid room"])
    else
      let existing := alGet st.rooms roomName
      let authFail : Bool :=
        match existing with
        | some er =>
          truthy er.passwordHash &&
            (decide (p.pwdHash = "") || decide (some p.pwdHash ≠ er.passwordHash))
        | none => false
      if authFail then
        (st, [Output.send ws (serialize (.authError "wrong password")) (st.sendOk ws),
              Output.close ws (some 4003) "auth failed"])
      else
        let str :=
          match existing with
          | some er => (st, er)
          | none =>
            getRoom st roomName (if p.hasPassword then some p.pwdHash else none) p.ttl
        let st1 := str.1
        let rc := joinRoom str.2 ws pick tag
        let room := rc.1
        let codename := rc.2
        let st2 := { st1 with rooms := alSet st1.rooms roomName room }
        let initOut := Output.send ws
          (serialize (.init codename room.clients.length
            (room.createdAt + room.ttlMs) room.createdAt (truthy room.passwordHash)))
          (st2.sendOk ws)
        (st2, initOut :: broadcast st2 room (.join codename room.clients.length) (some ws))

/-- An inbound frame after `JSON.parse`, classified by its `type` field.
Payload fields are `Option String`: `none` is an absent field, and a JS
falsy check `!msg.x` holds for both `none` and `some ""`. -/
inductive Frame where
  | message (encrypted iv : Option String)
  | file (data dataIv meta metaIv : Option String)
  | typing
  | destroy
  /-- unrecognized `type`, or unparsable JSON (the catch block). -/
  | other
deriving Repr, DecidableEq

/-- JS falsiness of an optional string field. -/
def falsyField : Option String → Bool
  | none => true
  | some s => decide (s = "")

/-- `ws.on('message')` (server.js lines 267-302).  The closure captures
the room joined at connection time and the assigned `codename`; the model
passes the room by name, valid while the room remains registered. -/
def handleMessage (st : ServerState) (roomName : String) (ws : Conn)
    (codename : String) (f : Frame) : ServerState × List Output :=
  match alGet st.rooms roomName with
  | none => (st, [])
  | some room =>
    match f with
    | .message enc iv =>
      if falsyField enc ∨ falsyField iv then (st, [])
      else
        (st, broadcast st room
          (.message codename (enc.getD "") (iv.getD "") st.now) (some ws))
    | .file d di m mi =>
      if falsyField d ∨ falsyField di ∨ falsyField m ∨ falsyField mi then (st, [])
      else
        (st, broadcast st room
          (.file codename (d.getD "") (di.getD "") (m.getD "") (mi.getD "") st.now)
          (some ws))
    | .typing => (st, broadcast st room (.typing codename) (some ws))
    | .destroy => manualDestroyRoom st roomName
    | .other => (st, [])

/-- The state change of the close handler on the room itself (server.js
lines 305-306): `room.clients.delete(ws)` and
`room.usedCodenames.delete(codename)`. -/
def leaveRoom (room : Room) (ws : Conn) (codename : String) : Room :=
  { room with
    clients := alDelete room.clients ws,
    usedCodenames := setDelete room.usedCodenames codename }

/-- `ws.on('close')` (server.js lines 304-317): remove the member, release
its codename, broadcast `leave` to the remaining members, and destroy the
room if it became empty.  The closure captures the room object; the model
passes it by name, valid while the room remains registered. -/
def handleClose (st : ServerState) (roomName : String) (ws : Conn)
    (codename : String) : ServerState × List Output :=
  match alGet st.rooms roomName with
  | none => (st, [])
  | some room =>
    let room1 := leaveRoom room ws codename
    let st1 := { st with rooms := alSet st.rooms roomName room1 }
    let outs := broadcast st1 room1 (.leave codename room1.clients.length) none
    if room1.clients.length = 0 then
      let so := destroyRoom st1 roomName
      (so.1, outs ++ so.2)
    else (st1, outs)

/-- Fire the pending timer with id `tid`, if due.  A `setTimeout` callback
runs once (the timer is consumed) and only at or after its scheduled
time.  TTL expiry runs `destroyRoom(name)`; the manual-destroy cleanup
re-reads `rooms.get(name)` and, when the name is still (or again)
registered, closes every member and deletes the entry — without
cancelling that room's own expiry timer (server.js lines 70-78). -/
def fireTimer (st : ServerState) (tid : Nat) : ServerState × List Output :=
  match st.timers.find? (fun t => decide (t.id = tid)) with
  | none => (st, [])
  | some t =>
    if t.fireAt ≤ st.now then
      let st1 := { st with timers := st.timers.filter (fun u => decide (u.id ≠ tid)) }
      match t.action with
      | .ttlExpiry name => destroyRoom st1 name
      | .manualCleanup name =>
        match alGet st1.rooms name with
        | none => (st1, [])
        | some r =>
          ({ st1 with rooms := alDelete st1.rooms name },
           r.clients.map (fun p => Output.close p.1 none ""))
    else (st, [])

/-- `GET /api/room-info` response body (server.js lines 136-160). -/
structure RoomInfo where
  status : Nat
  exists_ : Bool
  hasPassword : Bool
  participants : Option Nat
deriving Repr, DecidableEq

/-- The room-info endpoint: 400 on a missing/empty room parameter,
otherwise `{exists, hasPassword, participants}` read from the registry. -/
def apiRoomInfo (st : ServerState) (roomName : Option String) : RoomInfo :=
  match roomName with
  | none => ⟨400, false, false, none⟩
  | some n =>
    if n = "" then ⟨400, false, false, none⟩
    else
      match alGet st.rooms n with
      | none => ⟨200, false, false, none⟩
      | some r => ⟨200, true, truthy r.passwordHash, some r.clients.length⟩

/-- One event-loop turn of the server, used to quantify over every
transition the source can perform on the room registry. -/
inductive Step where
  | connect (ws : Conn) (p : ConnParams) (pick : Nat) (tag : String)
  | frame (roomName : String) (ws : Conn) (codename : String) (f : Frame)
  | closeConn (roomName : String) (ws : Conn) (codename : String)
  | fire (tid : Nat)
  | tick (dt : Nat)

/-- Dispatch one event-loop turn. -/
def step (st : ServerState) : Step → ServerState × List Output
  | .connect ws p pick tag => handleConnection st ws p pick tag
  | .frame roomName ws cn f => handleMessage st roomName ws cn f
  | .closeConn roomName ws cn => handleClose st roomName ws cn
  | .fire tid => fireTimer st tid
  | .tick dt => ({ st with now := st.now + dt }, [])

/-- Run a list of event-loop turns, keeping only the state. -/
def runSteps (st : ServerState) (ss : List Step) : ServerState :=
  ss.foldl (fun s a => (step s a).1) st

/-- The server's initial state: empty registry, no timers, all transports
open and delivering. -/
def initialState : ServerState :=
  { rooms := [], timers := [], nextTimer := 0, now := 0,
    readyState := fun _ => 1, sendOk := fun _ => true }

/-! ### Association-list laws -/

section AlLemmas

variable {κ ν : Type} [DecidableEq κ]

lemma alGet_cons (p : κ × ν) (m : List (κ × ν)) (k : κ) :
    alGet (p :: m) k = if p.1 = k then some p.2 else alGet m k := by
  by_cases h : p.1 = k
  · simp [alGet, List.find?_cons_of_pos, h]
  · simp [alGet, List.find?_cons_of_neg, h]

lemma alHas_cons (p : κ × ν) (m : List (κ × ν)) (k : κ) :
    alHas (p :: m) k = (decide (p.1 = k) || alHas m k) := by
  simp [alHas]

lemma alHas_iff_mem_keys (m : List (κ × ν)) (k : κ) :
    alHas m k = true ↔ k ∈ m.map Prod.fst := by
  simp [alHas, List.any_eq_true, List.mem_map]

lemma alHas_eq_false (m : List (κ × ν)) (k : κ) (h : k ∉ m.map Prod.fst) :
    alHas m k = false := by
  rcases hh : alHas m k with _ | _
  · rfl
  · exact absurd ((alHas_iff_mem_keys m k).mp hh) h

lemma alGet_append_last (m : List (κ × ν)) (k : κ) (v : ν)
    (h : alHas m k = false) : alGet (m ++ [(k, v)]) k = some v := by
  induction m with
  | nil => simp [alGet_cons]
  | cons p rest ih =>
    rw [alHas_cons, Bool.or_eq_false_iff] at h
    have hp : p.1 ≠ k := by simpa using h.1
    simpa [alGet_cons, hp] using ih h.2

lemma alGet_replace_self (m : List (κ × ν)) (k : κ) (v : ν)
    (h : alHas m k = true) :
    alGet (m.map (fun p => if p.1 = k then (k, v) else p)) k = some v := by
  induction m with
  | nil => simp [alHas] at h
  | cons p rest ih =>
    by_cases hp : p.1 = k
    · simp [hp, alGet_cons]
    · rw [alHas_cons, Bool.or_eq_true] at h
      rcases h with h | h
      · exact absurd (of_decide_eq_true h) hp
      · simpa [hp, alGet_cons] using ih h

lemma alGet_alSet_self (m : List (κ × ν)) (k : κ) (v : ν) :
    alGet (alSet m k v) k = some v := by
  unfold alSet
  rcases hh : alHas m k with _ | _
  · simpa [hh] using alGet_append_last m k v hh
  · simpa [hh] using alGet_replace_self m k v hh

lemma alGet_append_last_ne (m : List (κ × ν)) (k k2 : κ) (v : ν) (h : k2 ≠ k) :
    alGet (m ++ [(k, v)]) k2 = alGet m k2 := by
  induction m with
  | nil => simp [alGet_cons, alGet, Ne.symm h]
  | cons p rest ih => by_cases hp : p.1 = k2 <;> simp [alGet_cons, hp, ih]

lemma alGet_replace_ne (m : List (κ × ν)) (k k2 : κ) (v : ν) (h : k2 ≠ k) :
    alGet (m.map (fun p => if p.1 = k then (k, v) else p)) k2 = alGet m k2 := by
  induction m with
  | nil => rfl
  | cons p rest ih =>
    simp only [List.map_cons]
    rw [alGet_cons, alGet_cons]
    by_cases hp : p.1 = k
    · rw [if_pos hp]
      have h1 : ((k, v) : κ × ν).1 ≠ k2 := Ne.symm h
      have h2 : p.1 ≠ k2 := by rw [hp]; exact Ne.symm h
      rw [if_neg h1, if_neg h2]
      exact ih
    · rw [if_neg hp]
      by_cases hp2 : p.1 = k2
      · rw [if_pos hp2, if_pos hp2]
      · rw [if_neg hp2, if_neg hp2]
        exact ih

lemma alGet_alSet_ne (m : List (κ × ν)) (k k2 : κ) (v : ν) (h : k2 ≠ k) :
    alGet (alSet m k v) k2 = alGet m k2 := by
  unfold alSet
  rcases hh : alHas m k with _ | _
  · simpa [hh] using alGet_append_last_ne m k k2 v h
  · simpa [hh] using alGet_replace_ne m k k2 v h

lemma alGet_alDelete_self (m : List (κ × ν)) (k : κ) :
    alGet (alDelete m k) k = none := by
  induction m with
  | nil => rfl
  | cons p rest ih =>
    by_cases hp : p.1 = k
    · simpa [alDelete, hp] using ih
    · simpa [alDelete, hp, alGet_cons] using ih

lemma alGet_alDelete_ne (m : List (κ × ν)) (k k2 : κ) (h : k2 ≠ k) :
    alGet (alDelete m k) k2 = alGet m k2 := by
  induction m with
  | nil => rfl
  | cons p rest ih =>
    unfold alDelete
    rw [List.filter_cons]
    by_cases hp : p.1 = k
    · rw [if_neg (by simp [hp])]
      rw [alGet_cons, if_neg (by rw [hp]; exact Ne.symm h)]
      exact ih
    · rw [if_pos (by simp [hp])]
      rw [alGet_cons, alGet_cons]
      by_cases hp2 : p.1 = k2
      · rw [if_pos hp2, if_pos hp2]
      · rw [if_neg hp2, if_neg hp2]
        exact ih

lemma alSet_of_fresh (m : List (κ × ν)) (k : κ) (v : ν)
    (h : k ∉ m.map Prod.fst) : alSet m k v = m ++ [(k, v)] := by
  unfold alSet
  rw [alHas_eq_false m k h]
  simp

lemma alDelete_of_fresh (m : List (κ × ν)) (k : κ)
    (h : k ∉ m.map Prod.fst) : alDelete m k = m := by
  unfold alDelete
  apply List.filter_eq_self.mpr
  intro p hp
  simp only [decide_eq_true_eq]
  intro hk
  exact h (hk ▸ List.mem_map_of_mem Prod.fst hp)

lemma alSet_mem_keys (m : List (κ × ν)) (k : κ) (v : ν) :
    k ∈ (alSet m k v).map Prod.fst := by
  unfold alSet
  rcases hh : alHas m k with _ | _
  · simp
  · rw [alHas_iff_mem_keys] at hh
    rcases List.mem_map.mp hh with ⟨p, hp, he⟩
    apply List.mem_map.mpr
    refine ⟨(k, v), ?_, rfl⟩
    apply List.mem_map.mpr
    exact ⟨p, hp, by simp [he]⟩

lemma alGet_mem {m : List (κ × ν)} {k : κ} {v : ν}
    (h : alGet m k = some v) : (k, v) ∈ m := by
  unfold alGet at h
  rcases hf : m.find? (fun p => decide (p.1 = k)) with _ | p
  · rw [hf] at h; cases h
  · rw [hf] at h
    have hm := List.mem_of_find?_eq_some hf
    have hk := List.find?_some hf
    simp only [decide_eq_true_eq] at hk
    simp only [Option.map] at h
    cases h
    have hpe : p = (k, p.2) := by
      rw [← hk]
    rw [← hpe]
    exact hm

end AlLemmas

/-! ### Broadcast laws -/

lemma broadcast_mem_elim {st : ServerState} {room : Room} {data : Event}
    {exclude : Option Conn} {o : Output}
    (h : o ∈ broadcast st room data exclude) :
    ∃ c, o = Output.send c (serialize data) (st.sendOk c) ∧
      c ∈ room.clients.map Prod.fst ∧ some c ≠ exclude ∧ st.readyState c = 1 := by
  unfold broadcast at h
  rcases List.mem_filterMap.mp h with ⟨p, hp, he⟩
  by_cases hc : some p.1 ≠ exclude ∧ st.readyState p.1 = 1
  · rw [if_pos hc] at he
    cases he
    exact ⟨p.1, rfl, List.mem_map_of_mem Prod.fst hp, hc.1, hc.2⟩
  · rw [if_neg hc] at he
    cases he

lemma broadcast_mem_intro {st : ServerState} {room : Room} {data : Event}
    {exclude : Option Conn} {c : Conn} {cn : String}
    (hmem : (c, cn) ∈ room.clients) (hex : some c ≠ exclude)
    (hready : st.readyState c = 1) :
    Output.send c (serialize data) (st.sendOk c) ∈ broadcast st room data exclude := by
  unfold broadcast
  apply List.mem_filterMap.mpr
  exact ⟨(c, cn), hmem, by rw [if_pos ⟨hex, hready⟩]⟩

lemma broadcast_conns_sendOk_independent (st : ServerState) (room : Room)
    (data : Event) (exclude : Option Conn) (g : Conn → Bool) :
    (broadcast { st with sendOk := g } room data exclude).map Output.conn =
      (broadcast st room data exclude).map Output.conn := by
  unfold broadcast
  rw [List.map_filterMap, List.map_filterMap]
  apply List.filterMap_congr
  intro p _
  by_cases hc : some p.1 ≠ exclude ∧ st.readyState p.1 = 1
  · rw [if_pos hc, if_pos hc]
    rfl
  · rw [if_neg hc, if_neg hc]

/-! ### Field preservation of the join/leave room updates -/

lemma assignCodename_spec (room : Room) (pick : Nat) (tag : String) :
    (assignCodename room pick tag).1 = room ∨
    (assignCodename room pick tag).1 =
      { room with
        usedCodenames := setAdd room.usedCodenames (assignCodename room pick tag).2 } := by
  unfold assignCodename
  dsimp only
  split
  · exact Or.inl rfl
  · exact Or.inr rfl

lemma assignCodename_fields (room : Room) (pick : Nat) (tag : String) :
    ((assignCodename room pick tag).1).clients = room.clients ∧
    ((assignCodename room pick tag).1).passwordHash = room.passwordHash ∧
    ((assignCodename room pick tag).1).timer = room.timer ∧
    ((assignCodename room pick tag).1).createdAt = room.createdAt ∧
    ((assignCodename room pick tag).1).ttlMs = room.ttlMs := by
  rcases assignCodename_spec room pick tag with h | h <;> rw [h] <;>
    exact ⟨rfl, rfl, rfl, rfl, rfl⟩

lemma joinRoom_clients (room : Room) (ws : Conn) (pick : Nat) (tag : String) :
    (joinRoom room ws pick tag).1.clients =
      alSet room.clients ws (joinRoom room ws pick tag).2 := by
  unfold joinRoom
  simp [(assignCodename_fields room pick tag).1]

lemma joinRoom_passwordHash (room : Room) (ws : Conn) (pick : Nat) (tag : String) :
    (joinRoom room ws pick tag).1.passwordHash = room.passwordHash := by
  unfold joinRoom
  simp [(assignCodename_fields room pick tag).2.1]

lemma leaveRoom_passwordHash (room : Room) (ws : Conn) (cn : String) :
    (leaveRoom room ws cn).passwordHash = room.passwordHash := rfl

lemma joinRoom_createdAt (room : Room) (ws : Conn) (pick : Nat) (tag : String) :
    (joinRoom room ws pick tag).1.createdAt = room.createdAt := by
  unfold joinRoom
  simp [(assignCodename_fields room pick tag).2.2.2.1]

lemma joinRoom_ttlMs (room : Room) (ws : Conn) (pick : Nat) (tag : String) :
    (joinRoom room ws pick tag).1.ttlMs = room.ttlMs := by
  unfold joinRoom
  simp [(assignCodename_fields room pick tag).2.2.2.2]

/-! ### The codename invariant (claim C1) -/

/-- The pool-drawn codenames currently held by the members, in member
order. -/
def poolFilter (clients : List (Conn × String)) : List String :=
  (clients.map Prod.snd).filter (fun c => decide (c ∈ CODENAMES))

/-- Invariant relating a room's membership map and its `usedCodenames`
set: connection keys are pairwise distinct, the set is duplicate-free,
and it contains exactly the pool-drawn codenames of the members.
Synthetic `Agent-` names are never recorded in the set. -/
def codenameInv (room : Room) : Prop :=
  (room.clients.map Prod.fst).Nodup ∧
  room.usedCodenames.Nodup ∧
  room.usedCodenames.Perm (poolFilter room.clients)

instance (room : Room) : Decidable (codenameInv room) := by
  unfold codenameInv
  infer_instance

/-- No pool codename has `g` as its second character, but every synthetic
name does, so synthetic names never collide with the pool. -/
lemma pool_second_char : ∀ s ∈ CODENAMES, s.data.getD 1 ' ' ≠ 'g' := by decide

lemma agent_not_mem (tag : String) : ("Agent-" ++ tag) ∉ CODENAMES := by
  intro hmem
  exact pool_second_char _ hmem rfl

lemma assignCodename_of_exhausted (room : Room) (pick : Nat) (tag : String)
    (h : (CODENAMES.filter (fun n => decide (n ∉ room.usedCodenames))).length = 0) :
    assignCodename room pick tag = (room, "Agent-" ++ tag) := by
  unfold assignCodename
  dsimp only
  rw [if_pos h]

lemma assignCodename_of_avail (room : Room) (pick : Nat) (tag : String)
    (h : (CODENAMES.filter (fun n => decide (n ∉ room.usedCodenames))).length ≠ 0) :
    (assignCodename room pick tag).2 ∈ CODENAMES ∧
    (assignCodename room pick tag).2 ∉ room.usedCodenames ∧
    (assignCodename room pick tag).1 =
      { room with
        usedCodenames := room.usedCodenames ++ [(assignCodename room pick tag).2] } := by
  have hmem : ∀ pk : Nat,
      (CODENAMES.filter (fun n => decide (n ∉ room.usedCodenames))).getD
        (pk % (CODENAMES.filter (fun n => decide (n ∉ room.usedCodenames))).length) "" ∈
        CODENAMES.filter (fun n => decide (n ∉ room.usedCodenames)) := by
    intro pk
    have hlt : pk % (CODENAMES.filter (fun n => decide (n ∉ room.usedCodenames))).length <
        (CODENAMES.filter (fun n => decide (n ∉ room.usedCodenames))).length :=
      Nat.mod_lt _ (Nat.pos_of_ne_zero h)
    rw [List.getD_eq_getElem _ _ hlt]
    exact List.getElem_mem hlt
  have hsel := List.mem_filter.mp (hmem pick)
  have hnotused := of_decide_eq_true hsel.2
  constructor
  · unfold assignCodename
    dsimp only
    rw [if_neg h]
    exact hsel.1
  constructor
  · unfold assignCodename
    dsimp only
    rw [if_neg h]
    exact hnotused
  · unfold assignCodename
    dsimp only
    rw [if_neg h]
    dsimp only
    unfold setAdd
    rw [if_neg hnotused]

/-- Removing the unique entry with key `ws` removes, on the codename
side, exactly one occurrence of that entry's codename. -/
lemma mapSnd_alDelete_perm {m : List (Conn × String)} {ws : Conn} {cn : String}
    (hk : (m.map Prod.fst).Nodup) (hmem : (ws, cn) ∈ m) :
    ((alDelete m ws).map Prod.snd).Perm ((m.map Prod.snd).erase cn) := by
  induction m with
  | nil => cases hmem
  | cons p rest ih =>
    rw [List.map_cons, List.nodup_cons] at hk
    by_cases hp : p.1 = ws
    · have hpe : p = (ws, cn) := by
        rcases List.mem_cons.mp hmem with h1 | h1
        · exact h1.symm
        · exact absurd (hp ▸ List.mem_map_of_mem Prod.fst h1) hk.1
      have hfresh : ws ∉ rest.map Prod.fst := hp ▸ hk.1
      rw [hpe]
      have hdel : alDelete ((ws, cn) :: rest) ws = rest := by
        have h2 := alDelete_of_fresh rest ws hfresh
        unfold alDelete at h2 ⊢
        rw [List.filter_cons, if_neg (by simp)]
        exact h2
      rw [hdel, List.map_cons]
      show List.Perm (rest.map Prod.snd) ((cn :: rest.map Prod.snd).erase cn)
      rw [List.erase_cons_head]
    · have hmem2 : (ws, cn) ∈ rest := by
        rcases List.mem_cons.mp hmem with h1 | h1
        · exact absurd (by rw [← h1]) hp
        · exact h1
      have ihh := ih hk.2 hmem2
      have hcons : alDelete (p :: rest) ws = p :: alDelete rest ws := by
        unfold alDelete
        rw [List.filter_cons, if_pos (by simp [hp])]
      rw [hcons, List.map_cons, List.map_cons]
      by_cases hv : p.2 = cn
      · rw [hv, List.erase_cons_head]
        have hcn : cn ∈ rest.map Prod.snd := by
          have h3 := List.mem_map_of_mem Prod.snd hmem2
          simpa using h3
        exact ((ihh.cons cn).trans (List.perm_cons_erase hcn).symm)
      · rw [List.erase_cons_tail (by simp [hv])]
        exact ihh.cons p.2

lemma codenameInv_join (room : Room) (ws : Conn) (pick : Nat) (tag : String)
    (h : codenameInv room) (hfresh : ws ∉ room.clients.map Prod.fst) :
    codenameInv (joinRoom room ws pick tag).1 := by
  obtain ⟨hk, hu, hperm⟩ := h
  by_cases hex : (CODENAMES.filter (fun n => decide (n ∉ room.usedCodenames))).length = 0
  · have hspec := assignCodename_of_exhausted room pick tag hex
    unfold joinRoom
    rw [hspec]
    dsimp only
    rw [alSet_of_fresh _ _ _ hfresh]
    refine ⟨?_, hu, ?_⟩
    · rw [List.map_append]
      simp [List.nodup_append, hk, hfresh]
    · unfold poolFilter
      rw [List.map_append, List.filter_append]
      have hag : List.filter (fun c => decide (c ∈ CODENAMES))
          (([((ws : Conn), "Agent-" ++ tag)]).map Prod.snd) = [] := by
        simp [agent_not_mem tag]
      rw [hag, List.append_nil]
      exact hperm
  · obtain ⟨hpool, hnotused, hspec⟩ := assignCodename_of_avail room pick tag hex
    unfold joinRoom
    dsimp only
    rw [hspec]
    dsimp only
    rw [alSet_of_fresh _ _ _ hfresh]
    refine ⟨?_, ?_, ?_⟩
    · rw [List.map_append]
      simp [List.nodup_append, hk, hfresh]
    · simp [List.nodup_append, hu, hnotused]
    · unfold poolFilter
      rw [List.map_append, List.filter_append]
      have hcn : List.filter (fun c => decide (c ∈ CODENAMES))
          (([((ws : Conn), (assignCodename room pick tag).2)]).map Prod.snd) =
          [(assignCodename room pick tag).2] := by
        simp [hpool]
      rw [hcn]
      exact hperm.append_right _

lemma codenameInv_leave (room : Room) (ws : Conn) (cn : String)
    (h : codenameInv room) (hGet : alGet room.clients ws = some cn) :
    codenameInv (leaveRoom room ws cn) := by
  obtain ⟨hk, hu, hperm⟩ := h
  have hmem : (ws, cn) ∈ room.clients := alGet_mem hGet
  have hkeys2 : ((alDelete room.clients ws).map Prod.fst).Nodup := by
    have hsub : List.Sublist ((alDelete room.clients ws).map Prod.fst)
        (room.clients.map Prod.fst) :=
      List.Sublist.map Prod.fst (List.filter_sublist _)
    exact hsub.nodup hk
  have hu2 : (setDelete room.usedCodenames cn).Nodup := by
    unfold setDelete
    exact hu.filter _
  refine ⟨hkeys2, hu2, ?_⟩
  show (setDelete room.usedCodenames cn).Perm (poolFilter (alDelete room.clients ws))
  rw [List.perm_iff_count]
  intro a
  have hcnt1 := List.perm_iff_count.mp (mapSnd_alDelete_perm hk hmem) a
  have hcnt2 := List.perm_iff_count.mp hperm a
  by_cases hac : a = cn
  · subst hac
    have hL : List.count a (setDelete room.usedCodenames a) = 0 := by
      apply List.count_eq_zero.mpr
      intro hmm
      unfold setDelete at hmm
      exact (of_decide_eq_true (List.mem_filter.mp hmm).2) rfl
    by_cases hpool : a ∈ CODENAMES
    · have hR1 : List.count a (poolFilter (alDelete room.clients ws)) =
          List.count a ((alDelete room.clients ws).map Prod.snd) := by
        unfold poolFilter
        exact List.count_filter (by simp [hpool])
      have hR2 : List.count a ((room.clients.map Prod.snd).erase a) =
          List.count a (room.clients.map Prod.snd) - 1 :=
        List.count_erase_self a _
      have hle : List.count a room.usedCodenames ≤ 1 :=
        List.nodup_iff_count_le_one.mp hu a
      have hin : a ∈ room.clients.map Prod.snd := by
        simpa using List.mem_map_of_mem Prod.snd hmem
      have hge : 0 < List.count a (room.clients.map Prod.snd) :=
        List.count_pos_iff.mpr hin
      have hQ : List.count a (poolFilter room.clients) =
          List.count a (room.clients.map Prod.snd) := by
        unfold poolFilter
        exact List.count_filter (by simp [hpool])
      omega
    · have hR : List.count a (poolFilter (alDelete room.clients ws)) = 0 := by
        apply List.count_eq_zero.mpr
        intro hmm
        unfold poolFilter at hmm
        exact hpool (of_decide_eq_true (List.mem_filter.mp hmm).2)
      rw [hL, hR]
  · have hL : List.count a (setDelete room.usedCodenames cn) =
        List.count a room.usedCodenames := by
      unfold setDelete
      exact List.count_filter (by simp [hac])
    by_cases hpool : a ∈ CODENAMES
    · have hR1 : List.count a (poolFilter (alDelete room.clients ws)) =
          List.count a ((alDelete room.clients ws).map Prod.snd) := by
        unfold poolFilter
        exact List.count_filter (by simp [hpool])
      have hR2 : List.count a ((room.clients.map Prod.snd).erase cn) =
          List.count a (room.clients.map Prod.snd) :=
        List.count_erase_of_ne hac _
      have hQ : List.count a (poolFilter room.clients) =
          List.count a (room.clients.map Prod.snd) := by
        unfold poolFilter
        exact List.count_filter (by simp [hpool])
      omega
    · have hR : List.count a (poolFilter (alDelete room.clients ws)) = 0 := by
        apply List.count_eq_zero.mpr
        intro hmm
        unfold poolFilter at hmm
        exact hpool (of_decide_eq_true (List.mem_filter.mp hmm).2)
      have hL0 : List.count a room.usedCodenames = 0 := by
        rw [hcnt2]
        apply List.count_eq_zero.mpr
        intro hmm
        unfold poolFilter at hmm
        exact hpool (of_decide_eq_true (List.mem_filter.mp hmm).2)
      rw [hL, hL0, hR]

lemma codenameInv_sizes (room : Room) (h : codenameInv room) :
    room.usedCodenames.length ≤ room.clients.length ∧
    ((∀ q ∈ room.clients, q.2 ∈ CODENAMES) →
      room.usedCodenames.length = room.clients.length) ∧
    (poolFilter room.clients).Nodup := by
  obtain ⟨hk, hu, hperm⟩ := h
  have hlen := hperm.length_eq
  refine ⟨?_, ?_, hperm.nodup hu⟩
  · rw [hlen]
    calc (poolFilter room.clients).length
        ≤ (room.clients.map Prod.snd).length := List.length_filter_le _ _
      _ = room.clients.length := List.length_map _ _
  · intro hall
    have hself : poolFilter room.clients = room.clients.map Prod.snd := by
      unfold poolFilter
      apply List.filter_eq_self.mpr
      intro c hc
      rcases List.mem_map.mp hc with ⟨q, hq, he⟩
      exact decide_eq_true (he ▸ hall q hq)
    rw [hlen, hself, List.length_map]

lemma codenameInv_new (st : ServerState) (name : String) (ph : Option String)
    (ttl : Nat) (h : alGet st.rooms name = none) :
    codenameInv (getRoom st name ph ttl).2 := by
  unfold getRoom
  rw [h]
  refine ⟨by simp, by simp, ?_⟩
  simp [poolFilter]

/-! ### Concrete fixtures used by witnesses and counterexamples -/

/-- An open-room join request for room `r`. -/
def openParams : ConnParams :=
  { room := some "r", hasPassword := false, pwdHash := "", ttl := 10 }

/-- A two-member room used to instantiate broadcast properties. -/
def roomW : Room :=
  { name := "w", clients := [(1, "Echo"), (2, "Delta")], createdAt := 0,
    ttlMs := 600000, timer := 0, usedCodenames := ["Echo", "Delta"],
    passwordHash := none }

/-- A server state carrying `roomW`, every transport open and delivering. -/
def stW : ServerState :=
  { rooms := [("w", roomW)], timers := [⟨0, 600000, .ttlExpiry "w"⟩],
    nextTimer := 1, now := 5, readyState := fun _ => 1, sendOk := fun _ => true }

/-- A single-member password-protected room. -/
def roomP : Room :=
  { name := "p", clients := [(1, "Echo")], createdAt := 0, ttlMs := 600000,
    timer := 0, usedCodenames := ["Echo"], passwordHash := some "h1" }

/-- A server state carrying `roomP`. -/
def stP : ServerState :=
  { rooms := [("p", roomP)], timers := [⟨0, 600000, .ttlExpiry "p"⟩],
    nextTimer := 1, now := 0, readyState := fun _ => 1, sendOk := fun _ => true }

lemma broadcast_nil {st : ServerState} {room : Room} {data : Event}
    {exclude : Option Conn} (h : room.clients = []) :
    broadcast st room data exclude = [] := by
  unfold broadcast
  rw [h]
  rfl

/-- Shape of the connection handler when the target room exists and its
password gate is open (falsy `passwordHash`): the join tail runs. -/
lemma handleConnection_open_admit (st : ServerState) (ws : Conn) (p : ConnParams)
    (pick : Nat) (tag : String) (roomName : String) (er : Room)
    (hname : p.room = some roomName)
    (hval : ¬(roomName = "" ∨ roomName.length > 64))
    (hroom : alGet st.rooms roomName = some er)
    (hopen : truthy er.passwordHash = false) :
    handleConnection st ws p pick tag =
      ({ st with rooms := alSet st.rooms roomName (joinRoom er ws pick tag).1 },
       Output.send ws (serialize (.init (joinRoom er ws pick tag).2
            (joinRoom er ws pick tag).1.clients.length
            ((joinRoom er ws pick tag).1.createdAt + (joinRoom er ws pick tag).1.ttlMs)
            (joinRoom er ws pick tag).1.createdAt
            (truthy (joinRoom er ws pick tag).1.passwordHash))) (st.sendOk ws) ::
       broadcast { st with rooms := alSet st.rooms roomName (joinRoom er ws pick tag).1 }
         (joinRoom er ws pick tag).1
         (.join (joinRoom er ws pick tag).2 (joinRoom er ws pick tag).1.clients.length)
         (some ws)) := by
  unfold handleConnection
  rw [hname]
  show (if roomName = "" ∨ roomName.length > 64 then _ else _) = _
  rw [if_neg hval]
  dsimp only
  rw [hroom]
  dsimp only
  rw [hopen, Bool.false_and]
  rfl

/-- Shape of the connection handler when no room of that name exists: the
room is created from the request's declared password and TTL, then the
join tail runs on it. -/
lemma handleConnection_create (st : ServerState) (ws : Conn) (p : ConnParams)
    (pick : Nat) (tag : String) (roomName : String)
    (hname : p.room = some roomName)
    (hval : ¬(roomName = "" ∨ roomName.length > 64))
    (habs : alGet st.rooms roomName = none) :
    handleConnection st ws p pick tag =
      (let gr := getRoom st roomName (if p.hasPassword then some p.pwdHash else none) p.ttl
       ({ gr.1 with rooms := alSet gr.1.rooms roomName (joinRoom gr.2 ws pick tag).1 },
        Output.send ws (serialize (.init (joinRoom gr.2 ws pick tag).2
             (joinRoom gr.2 ws pick tag).1.clients.length
             ((joinRoom gr.2 ws pick tag).1.createdAt + (joinRoom gr.2 ws pick tag).1.ttlMs)
             (joinRoom gr.2 ws pick tag).1.createdAt
             (truthy (joinRoom gr.2 ws pick tag).1.passwordHash))) (gr.1.sendOk ws) ::
        broadcast { gr.1 with rooms := alSet gr.1.rooms roomName (joinRoom gr.2 ws pick tag).1 }
          (joinRoom gr.2 ws pick tag).1
          (.join (joinRoom gr.2 ws pick tag).2 (joinRoom gr.2 ws pick tag).1.clients.length)
          (some ws))) := by
  unfold handleConnection
  rw [hname]
  show (if roomName = "" ∨ roomName.length > 64 then _ else _) = _
  rw [if_neg hval]
  dsimp only
  rw [habs]
  dsimp only
  rw [if_neg Bool.false_ne_true]

/-! ### Claim theorems -/

/-- C9: a connection request whose room name is missing, empty, or longer
than 64 characters is closed immediately with fatal code 4001 (distinct
from the authentication-failure code 4003), and the server state — in
particular the room registry — is completely unchanged. -/
theorem C9_invalid_room_name (st : ServerState) (ws : Conn) (p : ConnParams)
    (pick : Nat) (tag : String)
    (h : p.room = none ∨ p.room = some "" ∨ ∃ s, p.room = some s ∧ s.length > 64) :
    handleConnection st ws p pick tag =
      (st, [Output.close ws (some 4001) "invalid room"]) ∧
    (4001 : Nat) ≠ 4003 := by
  refine ⟨?_, by decide⟩
  rcases h with h | h | ⟨s, hs, hlen⟩
  · unfold handleConnection
    rw [h]
  · unfold handleConnection
    rw [h]
    show (if ("" : String) = "" ∨ ("" : String).length > 64 then _ else _) = _
    rw [if_pos (Or.inl rfl)]
  · unfold handleConnection
    rw [hs]
    show (if s = "" ∨ s.length > 64 then _ else _) = _
    rw [if_pos (Or.inr hlen)]

/-- C9 witness: a 65-character room name is rejected without touching the
state. -/
theorem C9_invalid_room_name_witness :
    handleConnection stW 7
      { room := some (String.mk (List.replicate 65 'x')), hasPassword := false,
        pwdHash := "", ttl := 10 } 0 "AAAA" =
      (stW, [Output.close 7 (some 4001) "invalid room"]) :=
  (C9_invalid_room_name stW 7 _ 0 "AAAA"
    (Or.inr (Or.inr ⟨_, rfl, by decide⟩))).1

/-- C2: `broadcast` serializes the event once and hands the identical
bytes to every member connection that is not excluded and whose transport
is OPEN (`readyState = 1`); every emitted output is such a send; a
non-excluded open member is never skipped; and which members are reached
does not depend on any transport's delivery success, so one recipient's
failure cannot abort delivery to the others (the pure fan-out also
returns no state, so room state is untouched). -/
theorem C2_broadcast_fanout (st : ServerState) (room : Room) (data : Event)
    (exclude : Option Conn) :
    (∀ o ∈ broadcast st room data exclude,
        ∃ c, o = Output.send c (serialize data) (st.sendOk c) ∧
          c ∈ room.clients.map Prod.fst ∧ some c ≠ exclude ∧ st.readyState c = 1) ∧
    (∀ c cn, (c, cn) ∈ room.clients → some c ≠ exclude → st.readyState c = 1 →
        Output.send c (serialize data) (st.sendOk c) ∈ broadcast st room data exclude) ∧
    (∀ g : Conn → Bool,
        (broadcast { st with sendOk := g } room data exclude).map Output.conn =
          (broadcast st room data exclude).map Output.conn) := by
  refine ⟨?_, ?_, ?_⟩
  · intro o ho
    exact broadcast_mem_elim ho
  · intro c cn hmem hex hready
    exact broadcast_mem_intro hmem hex hready
  · intro g
    exact broadcast_conns_sendOk_independent st room data exclude g

/-- C2 witness: in the two-member room, member 2 (open, not excluded)
receives the serialized typing event when member 1 is excluded. -/
theorem C2_broadcast_fanout_witness :
    Output.send 2 (serialize (Event.typing "Echo")) true ∈
      broadcast stW roomW (Event.typing "Echo") (some 1) :=
  (C2_broadcast_fanout stW roomW (Event.typing "Echo") (some 1)).2.1 2 "Delta"
    (by decide) (by decide) rfl

/-- C1 (amended): the codename invariant — distinct connection keys, a
duplicate-free `usedCodenames` equal (as a multiset) to the pool-drawn
codenames of the members — holds for a freshly created room and is
preserved by the join update (for a fresh connection handle) and by the
close update; under it `|usedCodenames| ≤ |members|` always holds,
`|usedCodenames| = |members|` holds exactly while every member holds a
pool codename, and pool codenames are pairwise distinct among members.
The unamended equality fails once the 34-name pool is exhausted, because
the synthetic `Agent-` fallback is never recorded in `usedCodenames`
(see the counterexample). -/
theorem C1_codename_invariant (room : Room) (h : codenameInv room) :
    (∀ st name ph ttl, alGet st.rooms name = none →
        codenameInv (getRoom st name ph ttl).2) ∧
    (∀ ws pick tag, ws ∉ room.clients.map Prod.fst →
        codenameInv (joinRoom room ws pick tag).1) ∧
    (∀ ws cn, alGet room.clients ws = some cn →
        codenameInv (leaveRoom room ws cn)) ∧
    room.usedCodenames.length ≤ room.clients.length ∧
    ((∀ q ∈ room.clients, q.2 ∈ CODENAMES) →
        room.usedCodenames.length = room.clients.length) ∧
    (poolFilter room.clients).Nodup := by
  obtain ⟨h1, h2, h3⟩ := codenameInv_sizes room h
  exact ⟨fun st name ph ttl hn => codenameInv_new st name ph ttl hn,
    fun ws pick tag hfresh => codenameInv_join room ws pick tag h hfresh,
    fun ws cn hGet => codenameInv_leave room ws cn h hGet,
    h1, h2, h3⟩

/-- C1 witness: the invariant holds for `roomW` and is carried across a
join of the fresh connection 3. -/
theorem C1_codename_invariant_witness :
    codenameInv (joinRoom roomW 3 0 "BBBB").1 :=
  (C1_codename_invariant roomW (by decide)).2.1 3 0 "BBBB" (by decide)

/-- C3: on a join to an existing room whose `passwordHash` is truthy
(a set, non-empty hash), the attempt is admitted if and only if the
presented proof equals the stored hash exactly.  On mismatch (including
an absent/empty proof, which arrives as `""`) the server sends exactly
one `auth_error` event to the connecting client followed by a close with
the distinguishable fatal code 4003, and the whole server state — hence
the room and its membership — is unchanged.  On the exact match the
connection is added to the room's members and the stored hash is
untouched. -/
theorem C3_password_gate (st : ServerState) (ws : Conn) (p : ConnParams)
    (pick : Nat) (tag : String) (roomName : String) (er : Room) (s : String)
    (hname : p.room = some roomName)
    (hval : ¬(roomName = "" ∨ roomName.length > 64))
    (hroom : alGet st.rooms roomName = some er)
    (hhash : er.passwordHash = some s) (hs : s ≠ "") :
    (p.pwdHash ≠ s →
      handleConnection st ws p pick tag =
        (st, [Output.send ws (serialize (.authError "wrong password")) (st.sendOk ws),
              Output.close ws (some 4003) "auth failed"])) ∧
    (p.pwdHash = s →
      ∃ r1, alGet (handleConnection st ws p pick tag).1.rooms roomName = some r1 ∧
        ws ∈ r1.clients.map Prod.fst ∧ r1.passwordHash = some s) ∧
    ((4003 : Nat) ≠ 4001) := by
  refine ⟨?_, ?_, by decide⟩
  · intro hne2
    unfold handleConnection
    rw [hname]
    show (if roomName = "" ∨ roomName.length > 64 then _ else _) = _
    rw [if_neg hval]
    dsimp only
    rw [hroom]
    dsimp only
    rw [hhash]
    have hcond : (truthy (some s) &&
        (decide (p.pwdHash = "") || decide (some p.pwdHash ≠ some s))) = true := by
      simp [truthy, hs, hne2]
    rw [hcond]
    simp
  · intro heq
    have hcond : (truthy (some s) &&
        (decide (p.pwdHash = "") || decide (some p.pwdHash ≠ some s))) = false := by
      simp [truthy, heq, hs]
    have hHC : handleConnection st ws p pick tag =
        ({ st with rooms := alSet st.rooms roomName (joinRoom er ws pick tag).1 },
         Output.send ws (serialize (.init (joinRoom er ws pick tag).2
              (joinRoom er ws pick tag).1.clients.length
              ((joinRoom er ws pick tag).1.createdAt + (joinRoom er ws pick tag).1.ttlMs)
              (joinRoom er ws pick tag).1.createdAt
              (truthy (joinRoom er ws pick tag).1.passwordHash))) (st.sendOk ws) ::
         broadcast { st with rooms := alSet st.rooms roomName (joinRoom er ws pick tag).1 }
           (joinRoom er ws pick tag).1
           (.join (joinRoom er ws pick tag).2 (joinRoom er ws pick tag).1.clients.length)
           (some ws)) := by
      unfold handleConnection
      rw [hname]
      show (if roomName = "" ∨ roomName.length > 64 then _ else _) = _
      rw [if_neg hval]
      dsimp only
      rw [hroom]
      dsimp only
      rw [hhash, hcond]
      rfl
    rw [hHC]
    dsimp only
    refine ⟨(joinRoom er ws pick tag).1, alGet_alSet_self _ _ _, ?_, ?_⟩
    · rw [joinRoom_clients]
      exact alSet_mem_keys _ _ _
    · rw [joinRoom_passwordHash, hhash]

/-- C3 witness: the protected room `p` (hash `h1`) rejects the proof
`bad` with one `auth_error` event, a 4003 close, and an unchanged
state. -/
theorem C3_password_gate_witness :
    handleConnection stP 2
      { room := some "p", hasPassword := false, pwdHash := "bad", ttl := 10 }
      0 "AAAA" =
      (stP, [Output.send 2 (serialize (.authError "wrong password")) true,
             Output.close 2 (some 4003) "auth failed"]) :=
  (C3_password_gate stP 2 _ 0 "AAAA" "p" roomP "h1" rfl (by decide) rfl rfl
    (by decide)).1 (by decide)

/-- C5: when the single member of a room disconnects, the close handler
removes the member, broadcasts the leave event to the (empty) remainder,
and synchronously destroys the room: the name is gone from the registry,
the room's TTL timer is cancelled, no output is sent (there is nobody
left to receive the leave event and the destroyed room has no members to
close), and any later `getRoom` lookup of the name materializes a brand
new empty room stamped with the current time. -/
theorem C5_last_member_close (st : ServerState) (roomName : String) (ws : Conn)
    (cn : String) (room : Room)
    (hroom : alGet st.rooms roomName = some room)
    (hone : room.clients = [(ws, cn)]) :
    alGet (handleClose st roomName ws cn).1.rooms roomName = none ∧
    (∀ t ∈ (handleClose st roomName ws cn).1.timers, t.id ≠ room.timer) ∧
    (handleClose st roomName ws cn).2 = [] ∧
    (∀ ph ttl,
      (getRoom (handleClose st roomName ws cn).1 roomName ph ttl).2.clients = [] ∧
      (getRoom (handleClose st roomName ws cn).1 roomName ph ttl).2.createdAt =
        (handleClose st roomName ws cn).1.now) := by
  have hcl : (leaveRoom room ws cn).clients = [] := by
    unfold leaveRoom
    dsimp only
    rw [hone]
    simp [alDelete]
  have hHC : handleClose st roomName ws cn =
      ({ st with
          rooms := alDelete (alSet st.rooms roomName (leaveRoom room ws cn)) roomName,
          timers := st.timers.filter
            (fun t => decide (t.id ≠ (leaveRoom room ws cn).timer)) },
       []) := by
    unfold handleClose
    rw [hroom]
    dsimp only
    rw [broadcast_nil hcl, hcl]
    dsimp only [List.length_nil]
    rw [if_pos rfl]
    unfold destroyRoom
    rw [alGet_alSet_self]
    dsimp only
    rw [hcl]
    rfl
  have hnone : alGet (handleClose st roomName ws cn).1.rooms roomName = none := by
    rw [hHC]
    exact alGet_alDelete_self _ _
  refine ⟨hnone, ?_, ?_, ?_⟩
  · intro t ht
    rw [hHC] at ht
    have h2 := (List.mem_filter.mp ht).2
    exact of_decide_eq_true h2
  · rw [hHC]
  · intro ph ttl
    unfold getRoom
    rw [hnone]
    refine ⟨rfl, rfl⟩

/-- C5 witness: closing the only member of room `p` leaves the registry
without the name, cancels its timer, and a fresh lookup sees a new empty
room. -/
theorem C5_last_member_close_witness :
    alGet (handleClose stP "p" 1 "Echo").1.rooms "p" = none ∧
    (handleClose stP "p" 1 "Echo").2 = [] :=
  ⟨(C5_last_member_close stP "p" 1 "Echo" roomP rfl rfl).1,
   (C5_last_member_close stP "p" 1 "Echo" roomP rfl rfl).2.2.1⟩

/-- C6: `manualDestroyRoom` first sends the `destroyed` event carrying
the `manual` flag to every member — including the requester, since nobody
is excluded — and closes nothing; the room stays registered; the expiry
timer is cancelled and the actual teardown is scheduled 2500 ms ahead.
Firing that scheduled cleanup before the grace delay has elapsed does
nothing; once the clock reaches `now + 2500` it closes every member
connection and removes the room from the registry.  (`hids` states the
model's timer-id freshness: every pending timer id is below the
counter.) -/
theorem C6_manual_destroy_grace (st : ServerState) (name : String) (room : Room)
    (hroom : alGet st.rooms name = some room)
    (hids : ∀ t ∈ st.timers, t.id < st.nextTimer) :
    (manualDestroyRoom st name).2 =
      room.clients.map
        (fun q => Output.send q.1 (serialize (.destroyed true)) (st.sendOk q.1)) ∧
    alGet (manualDestroyRoom st name).1.rooms name = some room ∧
    (manualDestroyRoom st name).1.timers =
      st.timers.filter (fun t => decide (t.id ≠ room.timer)) ++
        [⟨st.nextTimer, st.now + 2500, .manualCleanup name⟩] ∧
    fireTimer (manualDestroyRoom st name).1 st.nextTimer =
      ((manualDestroyRoom st name).1, []) ∧
    (let st2 := { (manualDestroyRoom st name).1 with now := st.now + 2500 };
     alGet (fireTimer st2 st.nextTimer).1.rooms name = none ∧
     (fireTimer st2 st.nextTimer).2 =
       room.clients.map (fun q => Output.close q.1 none "")) := by
  have hMD : manualDestroyRoom st name =
      ({ st with
          timers := st.timers.filter (fun t => decide (t.id ≠ room.timer)) ++
            [⟨st.nextTimer, st.now + 2500, .manualCleanup name⟩],
          nextTimer := st.nextTimer + 1 },
       room.clients.map
         (fun q => Output.send q.1 (serialize (.destroyed true)) (st.sendOk q.1))) := by
    unfold manualDestroyRoom
    rw [hroom]
  have hfind :
      (st.timers.filter (fun t : PendingTimer => decide (t.id ≠ room.timer)) ++
        [({ id := st.nextTimer, fireAt := st.now + 2500,
            action := .manualCleanup name } : PendingTimer)]).find?
          (fun t : PendingTimer => decide (t.id = st.nextTimer)) =
        some ({ id := st.nextTimer, fireAt := st.now + 2500,
                action := .manualCleanup name } : PendingTimer) := by
    rw [List.find?_append]
    have h1 : (st.timers.filter
        (fun t : PendingTimer => decide (t.id ≠ room.timer))).find?
        (fun t : PendingTimer => decide (t.id = st.nextTimer)) = none := by
      rw [List.find?_eq_none]
      intro x hx
      have hxm := List.mem_of_mem_filter hx
      have hlt := hids x hxm
      simp only [decide_eq_true_eq]
      omega
    rw [h1]
    simp
  refine ⟨by rw [hMD], by rw [hMD]; exact hroom, by rw [hMD], ?_, ?_⟩
  · rw [hMD]
    unfold fireTimer
    dsimp only
    rw [hfind]
    dsimp only
    rw [if_neg (by omega)]
  · rw [hMD]
    dsimp only
    unfold fireTimer
    dsimp only
    rw [hfind]
    dsimp only
    rw [if_pos (by omega)]
    rw [hroom]
    refine ⟨alGet_alDelete_self _ _, rfl⟩

/-- C6 witness: manually destroying room `p` notifies its single member
and cleans up only after the 2500 ms grace delay. -/
theorem C6_manual_destroy_grace_witness :
    (manualDestroyRoom stP "p").2 =
      [Output.send 1 (serialize (.destroyed true)) true] ∧
    alGet (manualDestroyRoom stP "p").1.rooms "p" = some roomP :=
  ⟨(C6_manual_destroy_grace stP "p" roomP rfl (by decide)).1,
   (C6_manual_destroy_grace stP "p" roomP rfl (by decide)).2.1⟩

/-- C7 (amended): destroying a room that is not in the registry is a
no-op, and a deferred destruction action firing after the room's NAME was
removed from the registry is a safe no-op (it only consumes the fired
timer): both the TTL expiry and the manual-destroy grace cleanup check
the registry by name before acting, and nothing here throws.  However —
contrary to the unamended claim — the check is by name only and the grace
timer is never cancelled, so a pending grace timer DOES destroy a room
recreated under the same name within the grace window (see the
counterexample). -/
theorem C7_deferred_destroy_noop (st : ServerState) :
    (∀ name, alGet st.rooms name = none → destroyRoom st name = (st, [])) ∧
    (∀ tid t name,
       st.timers.find? (fun u => decide (u.id = tid)) = some t →
       t.fireAt ≤ st.now → alGet st.rooms name = none →
       (t.action = .ttlExpiry name ∨ t.action = .manualCleanup name) →
       (fireTimer st tid).1.rooms = st.rooms ∧ (fireTimer st tid).2 = []) := by
  constructor
  · intro name h
    unfold destroyRoom
    rw [h]
  · intro tid t name hfind hdue hnone hact
    unfold fireTimer
    rw [hfind]
    dsimp only
    rw [if_pos hdue]
    rcases hact with ha | ha
    · rw [ha]
      unfold destroyRoom
      dsimp only
      rw [hnone]
      exact ⟨rfl, rfl⟩
    · rw [ha]
      dsimp only
      rw [hnone]
      exact ⟨rfl, rfl⟩

/-- C7 witness: destroying the unregistered name `nope` changes nothing
and emits nothing. -/
theorem C7_deferred_destroy_noop_witness :
    destroyRoom stW "nope" = (stW, []) :=
  (C7_deferred_destroy_noop stW).1 "nope" rfl

/-- The event-loop trace refuting the unamended C7: the only member of
room `r` requests manual destruction and disconnects (destroying `r`
through the disconnect path and leaving the grace timer 1 pending), a new
client then recreates `r`, and the clock reaches the grace deadline. -/
def c7trace : List Step :=
  [Step.connect 1 openParams 0 "AAAA",
   Step.frame "r" 1 "Phantom" Frame.destroy,
   Step.closeConn "r" 1 "Phantom",
   Step.connect 2 openParams 0 "BBBB",
   Step.tick 2500]

set_option maxRecDepth 8192 in
/-- C7 counterexample: after the first three steps of `c7trace` room `r`
is already destroyed (through the last-member-disconnect path) while the
manual-destroy grace timer 1 is still pending; a new room `r` with
member 2 exists when the timer fires, and the firing is NOT a no-op: it
closes member 2, removes the recreated room, and leaves that room's own
TTL timer (id 2) dangling in the timer list. -/
theorem C7_grace_timer_counterexample :
    alGet (runSteps initialState (c7trace.take 3)).rooms "r" = none ∧
    (runSteps initialState (c7trace.take 3)).timers =
      [⟨1, 2500, .manualCleanup "r"⟩] ∧
    ((alGet (runSteps initialState c7trace).rooms "r").map
       (fun r => r.clients.map Prod.fst)) = some [2] ∧
    alGet (fireTimer (runSteps initialState c7trace) 1).1.rooms "r" = none ∧
    (fireTimer (runSteps initialState c7trace) 1).2 = [Output.close 2 none ""] ∧
    (fireTimer (runSteps initialState c7trace) 1).1.timers =
      [⟨2, 600000, .ttlExpiry "r"⟩] := by
  decide

/-- C8: a `message` frame from member `ws` whose `encrypted` and `iv`
fields are both present and non-empty leaves the server state unchanged
and relays, to every OTHER currently-open member, one `message` event
carrying the same `encrypted`/`iv` values plus the sender codename and
the server timestamp; every emitted output is such a send and none is
addressed to the sender.  If either required field is missing (absent or
empty, both falsy in JS), the frame is dropped with no state change and
no output. -/
theorem C8_message_relay (st : ServerState) (roomName : String) (ws : Conn)
    (cn : String) (room : Room) (e iv : String)
    (hroom : alGet st.rooms roomName = some room)
    (he : e ≠ "") (hiv : iv ≠ "") :
    (handleMessage st roomName ws cn (.message (some e) (some iv))).1 = st ∧
    (∀ c cn2, (c, cn2) ∈ room.clients → c ≠ ws → st.readyState c = 1 →
      Output.send c (serialize (.message cn e iv st.now)) (st.sendOk c) ∈
        (handleMessage st roomName ws cn (.message (some e) (some iv))).2) ∧
    (∀ o ∈ (handleMessage st roomName ws cn (.message (some e) (some iv))).2,
      Output.conn o ≠ ws ∧
      ∃ c, o = Output.send c (serialize (.message cn e iv st.now)) (st.sendOk c)) ∧
    (∀ enc2 iv2, (falsyField enc2 = true ∨ falsyField iv2 = true) →
      handleMessage st roomName ws cn (.message enc2 iv2) = (st, [])) := by
  have hHM : handleMessage st roomName ws cn (.message (some e) (some iv)) =
      (st, broadcast st room (.message cn e iv st.now) (some ws)) := by
    unfold handleMessage
    rw [hroom]
    dsimp only
    rw [if_neg (by simp [falsyField, he, hiv])]
    rfl
  refine ⟨by rw [hHM], ?_, ?_, ?_⟩
  · intro c cn2 hmem hne hready
    rw [hHM]
    exact broadcast_mem_intro hmem (by simpa using hne) hready
  · intro o ho
    rw [hHM] at ho
    obtain ⟨c, hoe, hcm, hex, hready⟩ := broadcast_mem_elim ho
    refine ⟨?_, ⟨c, hoe⟩⟩
    rw [hoe]
    intro hcw
    exact hex (congrArg some hcw)
  · intro enc2 iv2 hf
    unfold handleMessage
    rw [hroom]
    dsimp only
    rw [if_pos hf]

/-- C8 witness: member 1 of the two-member room sends an encrypted
payload; member 2 receives it with codename and timestamp, and a frame
with a missing `iv` is dropped silently. -/
theorem C8_message_relay_witness :
    Output.send 2 (serialize (.message "Echo" "X" "Y" 5)) true ∈
      (handleMessage stW "w" 1 "Echo" (.message (some "X") (some "Y"))).2 ∧
    handleMessage stW "w" 1 "Echo" (.message (some "X") none) = (stW, []) :=
  ⟨(C8_message_relay stW "w" 1 "Echo" roomW "X" "Y" rfl (by decide)
      (by decide)).2.1 2 "Delta" (by decide) (by decide) rfl,
   (C8_message_relay stW "w" 1 "Echo" roomW "X" "Y" rfl (by decide)
      (by decide)).2.2.2 (some "X") none (Or.inr rfl)⟩

/-- C10: when the first joiner of an unseen room name declares the
has-password flag but supplies an empty proof, the room is created with
`passwordHash = some ""` — which is falsy, so the room behaves as an open
room from then on: the creator's `init` event reports
`hasPassword: false`, the room-info endpoint reports the room as not
password-protected, and every later joiner (with any or no proof) is
admitted with no `auth_error`/close output. -/
theorem C10_empty_password_open_room (st : ServerState) (ws : Conn)
    (p : ConnParams) (pick : Nat) (tag : String) (name : String)
    (hname : p.room = some name) (hval : ¬(name = "" ∨ name.length > 64))
    (habs : alGet st.rooms name = none)
    (hhp : p.hasPassword = true) (hpw : p.pwdHash = "") :
    (∃ r, alGet (handleConnection st ws p pick tag).1.rooms name = some r ∧
       r.passwordHash = some "" ∧ truthy r.passwordHash = false) ∧
    (apiRoomInfo (handleConnection st ws p pick tag).1 (some name)).hasPassword =
      false ∧
    (∃ cn ex, (handleConnection st ws p pick tag).2 =
       [Output.send ws (serialize (.init cn 1 ex st.now false)) (st.sendOk ws)]) ∧
    (∀ ws2 p2 pick2 tag2, p2.room = some name →
       (∃ r2, alGet (handleConnection (handleConnection st ws p pick tag).1
            ws2 p2 pick2 tag2).1.rooms name = some r2 ∧
          ws2 ∈ r2.clients.map Prod.fst) ∧
       (∀ o ∈ (handleConnection (handleConnection st ws p pick tag).1
            ws2 p2 pick2 tag2).2,
          ∀ c code reason, o ≠ Output.close c code reason)) := by
  have harg : (if p.hasPassword = true then some p.pwdHash else none) =
      some "" := by
    rw [hhp, hpw]
    rfl
  have hHC := handleConnection_create st ws p pick tag name hname hval habs
  rw [harg] at hHC
  dsimp only at hHC
  have hg2ph : (getRoom st name (some "") p.ttl).2.passwordHash = some "" := by
    unfold getRoom
    rw [habs]
  have hg2cl : (getRoom st name (some "") p.ttl).2.clients = [] := by
    unfold getRoom
    rw [habs]
  have hg2cr : (getRoom st name (some "") p.ttl).2.createdAt = st.now := by
    unfold getRoom
    rw [habs]
  have hg1rooms : (getRoom st name (some "") p.ttl).1.rooms =
      alSet st.rooms name (getRoom st name (some "") p.ttl).2 := by
    unfold getRoom
    rw [habs]
  have hg1so : (getRoom st name (some "") p.ttl).1.sendOk = st.sendOk := by
    unfold getRoom
    rw [habs]
  have hjph : (joinRoom (getRoom st name (some "") p.ttl).2 ws pick tag).1.passwordHash =
      some "" := by
    rw [joinRoom_passwordHash, hg2ph]
  have hjcl : (joinRoom (getRoom st name (some "") p.ttl).2 ws pick tag).1.clients =
      [(ws, (joinRoom (getRoom st name (some "") p.ttl).2 ws pick tag).2)] := by
    rw [joinRoom_clients, hg2cl]
    rfl
  have hlook : alGet (handleConnection st ws p pick tag).1.rooms name =
      some (joinRoom (getRoom st name (some "") p.ttl).2 ws pick tag).1 := by
    rw [hHC]
    exact alGet_alSet_self _ _ _
  have hne : name ≠ "" := fun hc => hval (Or.inl hc)
  refine ⟨⟨_, hlook, hjph, by rw [hjph]; decide⟩, ?_, ?_, ?_⟩
  · unfold apiRoomInfo
    dsimp only
    rw [if_neg hne, hlook]
    dsimp only
    rw [hjph]
    decide
  · refine ⟨(joinRoom (getRoom st name (some "") p.ttl).2 ws pick tag).2,
      (joinRoom (getRoom st name (some "") p.ttl).2 ws pick tag).1.createdAt +
        (joinRoom (getRoom st name (some "") p.ttl).2 ws pick tag).1.ttlMs, ?_⟩
    rw [hHC]
    dsimp only
    have hbc : broadcast
        { (getRoom st name (some "") p.ttl).1 with
          rooms := alSet (getRoom st name (some "") p.ttl).1.rooms name
            (joinRoom (getRoom st name (some "") p.ttl).2 ws pick tag).1 }
        (joinRoom (getRoom st name (some "") p.ttl).2 ws pick tag).1
        (.join (joinRoom (getRoom st name (some "") p.ttl).2 ws pick tag).2
          (joinRoom (getRoom st name (some "") p.ttl).2 ws pick tag).1.clients.length)
        (some ws) = [] := by
      unfold broadcast
      rw [hjcl]
      simp
    rw [hbc, hjcl, hg1so, joinRoom_createdAt, hg2cr, hjph]
    rfl
  · intro ws2 p2 pick2 tag2 hname2
    have hopen : truthy (joinRoom (getRoom st name (some "") p.ttl).2 ws pick
        tag).1.passwordHash = false := by
      rw [hjph]
      rfl
    have hHC2 := handleConnection_open_admit (handleConnection st ws p pick tag).1
      ws2 p2 pick2 tag2 name _ hname2 hval hlook hopen
    constructor
    · refine ⟨(joinRoom (joinRoom (getRoom st name (some "") p.ttl).2 ws pick tag).1
        ws2 pick2 tag2).1, ?_, ?_⟩
      · rw [hHC2]
        exact alGet_alSet_self _ _ _
      · rw [joinRoom_clients]
        exact alSet_mem_keys _ _ _
    · intro o ho c code reason
      rw [hHC2] at ho
      rcases List.mem_cons.mp ho with ho1 | ho2
      · rw [ho1]
        intro hc
        cases hc
      · obtain ⟨c2, hoe, _, _, _⟩ := broadcast_mem_elim ho2
        rw [hoe]
        intro hc
        cases hc

/-- C10 witness: creating room `r` with the has-password flag but an
empty proof yields a room that room-info reports as not
password-protected. -/
theorem C10_empty_password_open_room_witness :
    (apiRoomInfo (handleConnection initialState 1
        { room := some "r", hasPassword := true, pwdHash := "", ttl := 10 }
        0 "AAAA").1 (some "r")).hasPassword = false :=
  (C10_empty_password_open_room initialState 1 _ 0 "AAAA" "r" rfl (by decide)
    rfl rfl rfl).2.1

/-- C4: `getRoom` on a registered name returns the existing room and the
unchanged state, ignoring the supplied password hash and TTL arguments;
and no event-loop step ever changes the `passwordHash` of a room that
stays registered under its name, so a room's hash is fixed at creation
for its whole lifetime. -/
theorem C4_passwordHash_immutable (st : ServerState) :
    (∀ name ph ttl r, alGet st.rooms name = some r →
       getRoom st name ph ttl = (st, r)) ∧
    (∀ s name r r1, alGet st.rooms name = some r →
       alGet (step st s).1.rooms name = some r1 →
       r1.passwordHash = r.passwordHash) := by
  constructor
  · intro name ph ttl r hr
    unfold getRoom
    rw [hr]
  · intro s name r r1 hr h1
    cases s with
    | tick dt =>
      dsimp only [step] at h1
      rw [hr] at h1
      cases h1
      rfl
    | fire tid =>
      dsimp only [step] at h1
      unfold fireTimer at h1
      cases hfind : st.timers.find? (fun t => decide (t.id = tid)) with
      | none =>
        rw [hfind] at h1
        rw [hr] at h1
        cases h1
        rfl
      | some t =>
        rw [hfind] at h1
        dsimp only at h1
        by_cases hdue : t.fireAt ≤ st.now
        · rw [if_pos hdue] at h1
          cases hact : t.action with
          | ttlExpiry nm =>
            rw [hact] at h1
            dsimp only at h1
            unfold destroyRoom at h1
            dsimp only at h1
            cases hnm : alGet st.rooms nm with
            | none =>
              rw [hnm] at h1
              rw [hr] at h1
              cases h1
              rfl
            | some rm =>
              rw [hnm] at h1
              dsimp only at h1
              by_cases hnn : name = nm
              · subst hnn
                rw [alGet_alDelete_self] at h1
                exact Option.noConfusion h1
              · rw [alGet_alDelete_ne _ _ _ hnn, hr] at h1
                cases h1
                rfl
          | manualCleanup nm =>
            rw [hact] at h1
            dsimp only at h1
            cases hnm : alGet st.rooms nm with
            | none =>
              rw [hnm] at h1
              rw [hr] at h1
              cases h1
              rfl
            | some rm =>
              rw [hnm] at h1
              dsimp only at h1
              by_cases hnn : name = nm
              · subst hnn
                rw [alGet_alDelete_self] at h1
                exact Option.noConfusion h1
              · rw [alGet_alDelete_ne _ _ _ hnn, hr] at h1
                cases h1
                rfl
        · rw [if_neg hdue] at h1
          rw [hr] at h1
          cases h1
          rfl
    | closeConn roomName ws cn =>
      dsimp only [step] at h1
      unfold handleClose at h1
      cases hrn : alGet st.rooms roomName with
      | none =>
        rw [hrn] at h1
        rw [hr] at h1
        cases h1
        rfl
      | some room =>
        rw [hrn] at h1
        dsimp only at h1
        by_cases hlen : (leaveRoom room ws cn).clients.length = 0
        · rw [if_pos hlen] at h1
          dsimp only at h1
          unfold destroyRoom at h1
          rw [alGet_alSet_self] at h1
          dsimp only at h1
          by_cases hnn : name = roomName
          · subst hnn
            rw [alGet_alDelete_self] at h1
            exact Option.noConfusion h1
          · rw [alGet_alDelete_ne _ _ _ hnn, alGet_alSet_ne _ _ _ _ hnn, hr] at h1
            cases h1
            rfl
        · rw [if_neg hlen] at h1
          dsimp only at h1
          by_cases hnn : name = roomName
          · subst hnn
            rw [alGet_alSet_self] at h1
            cases h1
            rw [hr] at hrn
            cases hrn
            exact leaveRoom_passwordHash _ _ _
          · rw [alGet_alSet_ne _ _ _ _ hnn, hr] at h1
            cases h1
            rfl
    | frame roomName ws cn f =>
      dsimp only [step] at h1
      unfold handleMessage at h1
      cases hrn : alGet st.rooms roomName with
      | none =>
        rw [hrn] at h1
        rw [hr] at h1
        cases h1
        rfl
      | some room =>
        rw [hrn] at h1
        dsimp only at h1
        cases f with
        | message enc iv =>
          dsimp only at h1
          by_cases hf : falsyField enc = true ∨ falsyField iv = true
          · rw [if_pos hf] at h1
            rw [hr] at h1
            cases h1
            rfl
          · rw [if_neg hf] at h1
            rw [hr] at h1
            cases h1
            rfl
        | file d di m mi =>
          dsimp only at h1
          by_cases hf : falsyField d = true ∨ falsyField di = true ∨
              falsyField m = true ∨ falsyField mi = true
          · rw [if_pos hf] at h1
            rw [hr] at h1
            cases h1
            rfl
          · rw [if_neg hf] at h1
            rw [hr] at h1
            cases h1
            rfl
        | typing =>
          dsimp only at h1
          rw [hr] at h1
          cases h1
          rfl
        | destroy =>
          dsimp only at h1
          unfold manualDestroyRoom at h1
          rw [hrn] at h1
          dsimp only at h1
          rw [hr] at h1
          cases h1
          rfl
        | other =>
          dsimp only at h1
          rw [hr] at h1
          cases h1
          rfl
    | connect ws p pick tag =>
      dsimp only [step] at h1
      unfold handleConnection at h1
      cases hpr : p.room with
      | none =>
        rw [hpr] at h1
        rw [hr] at h1
        cases h1
        rfl
      | some roomName =>
        rw [hpr] at h1
        dsimp only at h1
        by_cases hval : roomName = "" ∨ roomName.length > 64
        · rw [if_pos hval] at h1
          rw [hr] at h1
          cases h1
          rfl
        · rw [if_neg hval] at h1
          cases hrn : alGet st.rooms roomName with
          | some er =>
            rw [hrn] at h1
            dsimp only at h1
            by_cases hauth : (truthy er.passwordHash &&
                (decide (p.pwdHash = "") ||
                 decide (some p.pwdHash ≠ er.passwordHash))) = true
            · rw [if_pos hauth] at h1
              rw [hr] at h1
              cases h1
              rfl
            · rw [if_neg hauth] at h1
              dsimp only at h1
              by_cases hnn : name = roomName
              · subst hnn
                rw [alGet_alSet_self] at h1
                cases h1
                rw [hr] at hrn
                cases hrn
                exact joinRoom_passwordHash _ _ _ _
              · rw [alGet_alSet_ne _ _ _ _ hnn, hr] at h1
                cases h1
                rfl
          | none =>
            rw [hrn] at h1
            dsimp only at h1
            rw [if_neg Bool.false_ne_true] at h1
            dsimp only at h1
            have hnn : name ≠ roomName := by
              intro hc
              rw [hc, hrn] at hr
              exact Option.noConfusion hr
            have hrooms : (getRoom st roomName
                (if p.hasPassword = true then some p.pwdHash else none) p.ttl).1.rooms =
                alSet st.rooms roomName (getRoom st roomName
                  (if p.hasPassword = true then some p.pwdHash else none) p.ttl).2 := by
              unfold getRoom
              rw [hrn]
            rw [alGet_alSet_ne _ _ _ _ hnn, hrooms,
              alGet_alSet_ne _ _ _ _ hnn, hr] at h1
            cases h1
            rfl

/-- C4 witness: looking up the existing room `w` with a different
password hash and TTL returns the room unchanged and ignores both
arguments. -/
theorem C4_passwordHash_immutable_witness :
    getRoom stW "w" (some "zzz") 15 = (stW, roomW) :=
  (C4_passwordHash_immutable stW).1 "w" (some "zzz") 15 roomW rfl

set_option maxRecDepth 8192 in
/-- C1 counterexample: the claimed equality `|usedCodenames| = |members|`
fails on the code as soon as the pool of 34 codenames is exhausted.
After 35 connections join room `r`, the 35th member holds a synthetic
`Agent-` codename that `assignCodename` never added to `usedCodenames`
(server.js line 84 returns without `room.usedCodenames.add`), so the
room has 35 members but only 34 used codenames. -/
theorem C1_usedCodenames_size_counterexample :
    ((alGet (runSteps initialState
        ((List.range 35).map (fun i => Step.connect i openParams 0 "ZZZZ"))).rooms
        "r").map
      (fun r => (r.clients.length, r.usedCodenames.length))) = some (35, 34) := by
  decide

end Offchat
